import Mathlib

/-
  Shallow embedding of the query-tree core of `qtree/qtree.go` (package qtree).

  The tree of `QueryTreeNode` values linked by Go pointers is modelled as a
  flat heap `nodes : List (Nat × NodeData)` indexed by surrogate keys
  (a key plays the role of a pointer; pointer equality = key equality).
  Machine `uint32` ids are modelled as `Nat`: ids are only compared for
  equality and stored in maps, so overflow never matters.

  Everything is executable; the recursive functions take a `fuel` argument
  (plain structural recursion on `Nat`) so that concrete runs reduce in the
  kernel.  `fuel` only bounds recursion depth; exhaustion is reported through
  dedicated error values that the source program cannot produce.
-/

namespace Magellan

/-- Fragment of the graphql AST that `AddChild` inspects: a field's declared
type is a `Named` type possibly wrapped in `List` / `NonNull`
(`ast.Named`, `ast.List`, `ast.NonNull` in `graphql-go`). -/
inductive GType where
  | named : String → GType
  | list : GType → GType
  | nonNull : GType → GType
deriving DecidableEq

/-- `ast.FieldDefinition`: only the name (`Name.Value`) and declared `Type`
are read by `AddChild`. -/
structure FieldDef where
  name : String
  type : GType
deriving DecidableEq

/-- `ast.ObjectDefinition`: only `Name.Value` and `Fields` are read. -/
structure ObjectDef where
  name : String
  fields : List FieldDef
deriving DecidableEq

/-- Modelled from the spec: `types.IsPrimitive` (package `types` is not under
src/).  The spec calls these the "schema-recognized primitives"; we use the
standard graphql scalar names.  The claims only need that some names are
primitive and others are not. -/
def IsPrimitive (n : String) : Bool :=
  n = "String" || n = "Int" || n = "Float" || n = "Boolean" || n = "ID"

/-- One argument of `proto.RGQLQueryTreeNode`: `Name` and `VariableId`. -/
structure ArgDescriptor where
  name : String
  variableId : Nat

/-- `proto.RGQLQueryTreeNode`: proposed id, field name, args, nested children. -/
inductive NodeDescriptor where
  | mk : Nat → String → List ArgDescriptor → List NodeDescriptor → NodeDescriptor

/-- The three notification operations of the hub
(`Operation_AddChild`, `Operation_DelChild`, `Operation_Delete`). -/
inductive EventOp where
  | addChildOp
  | delChildOp
  | deleteOp
deriving DecidableEq

/-- `QTNodeUpdate`: operation plus (for child events) the affected child,
identified by its heap key. -/
structure QTNodeUpdate where
  op : EventOp
  child : Option Nat
deriving DecidableEq

/-- Modelled from the spec: the Variable Store (its implementation is not
under src/; the spec gives its contract: insertion, reference-counted
lookup, release, garbage collection of bindings with zero references).
`bindings` maps a variable id to its outstanding reference count; the bound
value is opaque to this core and not modelled.  `gcCount` is ghost
instrumentation counting `GarbageCollect` invocations. -/
structure VariableStore where
  bindings : List (Nat × Nat)
  gcCount : Nat
deriving DecidableEq

/-- A variable binding carried by a mutation batch (`proto.ASTVariable`):
only the id is relevant to this core. -/
structure VarBinding where
  id : Nat
deriving DecidableEq

/-- The per-node state of `QueryTreeNode`.  `ast` is the node's
`AST ast.TypeDefinition`: `AddChild` only ever type-asserts it to
`*ast.ObjectDefinition`, so we keep `some od` for an object definition and
`none` for nil (primitive leaves).  `subs` maps a subscription id to the
ordered list of updates delivered to that subscription. -/
structure NodeData where
  id : Nat
  parentKey : Option Nat
  children : List Nat
  ast : Option ObjectDef
  isPrimitive : Bool
  primitiveName : String
  arguments : List (String × Nat)
  subs : List (Nat × List QTNodeUpdate)
  subCtr : Nat
deriving DecidableEq

/-- The whole-tree state: the heap of nodes, the key of the root, the root's
`RootNodeMap` (id → key), the shared variable store and schema resolver.
Only the root node carries a `RootNodeMap` in the source (`NewQueryTree`
initialises it on the root; minted nodes leave theirs nil), so the map is
kept once, tree-wide. -/
structure TreeState where
  nodes : List (Nat × NodeData)
  nextKey : Nat
  rootKey : Nat
  rootMap : List (Nat × Nat)
  store : VariableStore
  resolver : List (String × ObjectDef)
deriving DecidableEq

/-- First-match association lookup (Go map read / linear scan). -/
def lookupA {α β : Type} [DecidableEq α] : List (α × β) → α → Option β
  | [], _ => none
  | p :: rest, k => if p.1 = k then some p.2 else lookupA rest k

/-- Go map assignment: replace the first binding of the key, else append. -/
def mapInsert {α β : Type} [DecidableEq α] : List (α × β) → α → β → List (α × β)
  | [], k, v => [(k, v)]
  | p :: rest, k, v => if p.1 = k then (k, v) :: rest else p :: mapInsert rest k v

/-- Go map `delete`: drop the first binding of the key. -/
def mapErase {α β : Type} [DecidableEq α] : List (α × β) → α → List (α × β)
  | [], _ => []
  | p :: rest, k => if p.1 = k then rest else p :: mapErase rest k

/-- Dereferencing an absent key yields an inert node value; every reachable
dereference in the source is of a live pointer, except the nil dereference in
`Dispose`, modelled separately as a panic. -/
def defaultNodeData : NodeData :=
  { id := 0, parentKey := none, children := [], ast := none, isPrimitive := false,
    primitiveName := "", arguments := [], subs := [], subCtr := 0 }

/-- Read a node from the heap. -/
def getNode (s : TreeState) (k : Nat) : NodeData :=
  (lookupA s.nodes k).getD defaultNodeData

/-- Mutate the node stored at key `k` in place. -/
def updateNode (s : TreeState) (k : Nat) (f : NodeData → NodeData) : TreeState :=
  { s with nodes := s.nodes.map (fun p => if p.1 = k then (p.1, f p.2) else p) }

/-- Append an update to the log of every subscription in a registry. -/
def appendEvent (subs : List (Nat × List QTNodeUpdate)) (u : QTNodeUpdate) :
    List (Nat × List QTNodeUpdate) :=
  subs.map (fun p => (p.1, p.2 ++ [u]))

/-- `nextUpdate`: deliver an update to every subscriber of node `k`. -/
def publish (s : TreeState) (k : Nat) (u : QTNodeUpdate) : TreeState :=
  updateNode s k (fun nd => { nd with subs := appendEvent nd.subs u })

/-- `SubscribeChanges` on node `k`: register a fresh subscription, returning
its id. -/
def subscribeChanges (s : TreeState) (k : Nat) : TreeState × Nat :=
  let nd := getNode s k
  (updateNode s k
      (fun nd => { nd with subs := nd.subs ++ [(nd.subCtr, [])], subCtr := nd.subCtr + 1 }),
    nd.subCtr)

/-- Increment the reference count of a binding. -/
def storeBump (st : VariableStore) (vid : Nat) : VariableStore :=
  { st with bindings := st.bindings.map (fun p => if p.1 = vid then (p.1, p.2 + 1) else p) }

/-- Modelled from the spec: `VariableStore.Get` — reference-counted lookup.
A hit increments the binding's reference count and returns a reference
(identified by the variable id); a miss returns `none` and leaves the store
unchanged. -/
def storeGet (st : VariableStore) (vid : Nat) : Option Nat × VariableStore :=
  match lookupA st.bindings vid with
  | none => (none, st)
  | some _ => (some vid, storeBump st vid)

/-- Modelled from the spec: `VariableReference.Unsubscribe` — release one
reference. -/
def storeUnsub (st : VariableStore) (ref : Nat) : VariableStore :=
  { st with bindings := st.bindings.map (fun p => if p.1 = ref then (p.1, p.2 - 1) else p) }

/-- Modelled from the spec: `VariableStore.Put` — install a binding keyed by
its id (the bound value is opaque; re-putting an existing id keeps its
reference count). -/
def storePut (st : VariableStore) (b : VarBinding) : VariableStore :=
  if (lookupA st.bindings b.id).isSome then st
  else { st with bindings := st.bindings ++ [(b.id, 0)] }

/-- Modelled from the spec: `VariableStore.GarbageCollect` — reclaim bindings
with zero outstanding references.  Bumps the ghost counter. -/
def storeGC (st : VariableStore) : VariableStore :=
  { bindings := st.bindings.filter (fun p => p.2 ≠ 0), gcCount := st.gcCount + 1 }

/-- Release every reference held in an argument map
(`for _, marg := range argMap { marg.Unsubscribe() }`). -/
def unsubAll (st : VariableStore) (m : List (String × Nat)) : VariableStore :=
  m.foldl (fun acc p => storeUnsub acc p.2) st

/-- The error taxonomy of `AddChild` (spec §7).  `fuelOut` is a model
artifact for fuel exhaustion, producible by no finite run of the source. -/
inductive AddErr where
  | duplicateNodeId
  | notSelectable
  | unknownField
  | unresolvedType
  | unknownVariable
  | fuelOut
deriving DecidableEq

/-- `SchemaResolver.LookupType` (external collaborator, modelled from the
spec): resolve a named type reference to its definition, `none` when
unresolved (non-named references resolve to nothing). -/
def lookupType (res : List (String × ObjectDef)) : GType → Option ObjectDef
  | .named n => lookupA res n
  | _ => none

/-- Strip one `ast.List` wrapper (lines 112–114). -/
def unwrapListT : GType → GType
  | .list t => t
  | t => t

/-- Strip one `ast.NonNull` wrapper (lines 121–123). -/
def unwrapNonNull : GType → GType
  | .nonNull t => t
  | t => t

/-- The named type at the head of a type reference, if any (lines 125–131). -/
def classifyNamed : GType → Option String
  | .named n => some n
  | _ => none

/-- Lines 88–141 of `AddChild`: the read-only validation prefix.  Returns
`(isPrimitive, primitiveName, selectedTypeDef)` on success.

Line 88 reads `qt.RootNodeMap`, the parent's own map — which is non-nil only
on the root node (`NewQueryTree` initialises it; minted child nodes leave it
nil, and reading a nil Go map always misses).  Hence the duplicate-id check
fires only when the parent is the root. -/
def validateChild (s : TreeState) (pk : Nat) (did : Nat) (fieldName : String) :
    Except AddErr (Bool × String × Option ObjectDef) :=
  if pk = s.rootKey ∧ (lookupA s.rootMap did).isSome then .error .duplicateNodeId
  else
    match (getNode s pk).ast with
    | none => .error .notSelectable
    | some od =>
      match od.fields.find? (fun f => f.name = fieldName) with
      | none => .error .unknownField
      | some sf =>
        match classifyNamed (unwrapNonNull (unwrapListT sf.type)) with
        | some n =>
          if IsPrimitive n then .ok (true, n, none)
          else
            match lookupType s.resolver (unwrapNonNull (unwrapListT sf.type)) with
            | none => .error .unresolvedType
            | some td => .ok (false, "", some td)
        | none =>
          match lookupType s.resolver (unwrapNonNull (unwrapListT sf.type)) with
          | none => .error .unresolvedType
          | some td => .ok (false, "", some td)

/-- Lines 143–154 of `AddChild`: resolve each argument through the store in
order, accumulating the argument map (Go map assignment overwrites an earlier
binding of the same name).  On a miss, release every reference currently in
the map and fail. -/
def processArgs (st : VariableStore) (acc : List (String × Nat)) :
    List ArgDescriptor → VariableStore × Option (List (String × Nat))
  | [] => (st, some acc)
  | a :: rest =>
    match storeGet st a.variableId with
    | (none, st1) => (unsubAll st1 acc, none)
    | (some r, st1) => processArgs st1 (mapInsert acc a.name r) rest

/-- Lines 198–212, `removeChild`: delete the first occurrence of the child
from the children array and notify the node's subscribers with a `DelChild`
update carrying that child; no-op when the child is absent. -/
def removeChild (s : TreeState) (pk ck : Nat) : TreeState :=
  if ck ∈ (getNode s pk).children then
    publish (updateNode s pk (fun nd => { nd with children := nd.children.erase ck })) pk
      { op := .delChildOp, child := some ck }
  else s

/-- The `for _, child := range data.Children { nnod.AddChild(child) }` loop of
lines 183–187: apply `f` (the recursive `AddChild` on the minted node) to each
nested descriptor, stopping at the first error. -/
def addChildrenLoop (f : TreeState → NodeDescriptor → TreeState × Option AddErr) :
    TreeState → List NodeDescriptor → TreeState × Option AddErr
  | s, [] => (s, none)
  | s, c :: cs =>
    match f s c with
    | (s1, some e) => (s1, some e)
    | (s1, none) => addChildrenLoop f s1 cs

/-- Lines 157–169 of `AddChild`: the fields of the freshly minted
`QueryTreeNode` (validation results and argument map passed in). -/
def mintNode (pk did : Nat) (argMap : List (String × Nat)) (isPrim : Bool)
    (primName : String) (tdef : Option ObjectDef) : NodeData :=
  { id := did, parentKey := some pk, children := [], ast := tdef,
    isPrimitive := isPrim, primitiveName := primName, arguments := argMap,
    subs := [], subCtr := 0 }

/-- `qt.Children = append(qt.Children, nnod)` (line 170), as a node-level
mutation. -/
def addChildKey (mk : Nat) (nd : NodeData) : NodeData :=
  { nd with children := nd.children ++ [mk] }

/-- Lines 156–172 of `AddChild`: mint the new node at the fresh heap key
`s.nextKey`, append it to the parent's children and register its id in the
root index. -/
def mintState (s : TreeState) (pk did : Nat) (st1 : VariableStore)
    (argMap : List (String × Nat)) (isPrim : Bool) (primName : String)
    (tdef : Option ObjectDef) : TreeState :=
  { updateNode
      { s with
        store := st1,
        nodes := s.nodes ++ [(s.nextKey, mintNode pk did argMap isPrim primName tdef)],
        nextKey := s.nextKey + 1 }
      pk (addChildKey s.nextKey)
    with
    rootMap := mapInsert s.rootMap did s.nextKey }

/-- The defer of lines 175–180 of `AddChild`: on a nested failure, remove the
minted node (key `mk`) from the parent's children (firing the parent's
`DelChild` notification) and delete its id from the root index.  The argument
references held by the minted node are not released here. -/
def rollbackState (s4 : TreeState) (pk mk did : Nat) : TreeState :=
  let s5 := removeChild s4 pk mk
  { s5 with rootMap := mapErase s5.rootMap did }

/-- Lines 82–195, `AddChild` on the node at key `pk`: validate, resolve
arguments, mint the node (`mintState`), recursively apply nested descriptors,
roll the insertion back on a nested failure (`rollbackState`), and notify the
parent's subscribers on success. -/
def addChild : Nat → TreeState → Nat → NodeDescriptor → TreeState × Option AddErr
  | 0, s, _, _ => (s, some .fuelOut)
  | fuel + 1, s, pk, .mk did dfield dargs dchildren =>
    match validateChild s pk did dfield with
    | .error e => (s, some e)
    | .ok (isPrim, primName, tdef) =>
      match processArgs s.store [] dargs with
      | (st1, none) => ({ s with store := st1 }, some .unknownVariable)
      | (st1, some argMap) =>
        match addChildrenLoop (fun st c => addChild fuel st s.nextKey c)
            (mintState s pk did st1 argMap isPrim primName tdef) dchildren with
        | (s4, some e) => (rollbackState s4 pk s.nextKey did, some e)
        | (s4, none) =>
          (publish s4 pk { op := .addChildOp, child := some s.nextKey }, none)

/-- Run-time failures of `Dispose` / `ApplyTreeMutation`: `nilPanic` is a Go
nil-pointer-dereference panic; `fuelOut` is the model's fuel artifact. -/
inductive RunErr where
  | nilPanic
  | fuelOut
deriving DecidableEq

instance {ε α : Type} [DecidableEq ε] [DecidableEq α] : DecidableEq (Except ε α)
  | .error a, .error b =>
    if h : a = b then .isTrue (by rw [h]) else .isFalse (by intro hc; cases hc; exact h rfl)
  | .error _, .ok _ => .isFalse (by intro hc; cases hc)
  | .ok _, .error _ => .isFalse (by intro hc; cases hc)
  | .ok a, .ok b =>
    if h : a = b then .isTrue (by rw [h]) else .isFalse (by intro hc; cases hc; exact h rfl)

/-- The `for _, child := range qt.Children` loop of `Dispose` (lines
247–249), with Go slice semantics: the range expression is evaluated once, so
the loop runs over the snapshot length while each `child.Dispose()` call
shrinks `qt.Children` in place through `removeChild` (shift left, nil out the
last slot, reslice).  The underlying array is shared, so at iteration `i` the
loop reads slot `i` of the array: the current element when `i` is still in
range, and a nil pointer (whose `Dispose` dereferences nil and panics)
otherwise. -/
def disposeLoop (f : TreeState → Nat → Except RunErr TreeState) :
    TreeState → Nat → Nat → Nat → Except RunErr TreeState
  | s, _, _, 0 => .ok s
  | s, k, i, rem + 1 =>
    let cur := (getNode s k).children
    if h : i < cur.length then
      match f s (cur.get ⟨i, h⟩) with
      | .error e => .error e
      | .ok s1 => disposeLoop f s1 k (i + 1) rem
    else .error .nilPanic

/-- Line 250 of `Dispose`: `qt.Children = nil`. -/
def disposeClear (s2 : TreeState) (k : Nat) : TreeState :=
  updateNode s2 k (fun nd => { nd with children := [] })

/-- Lines 251–253 of `Dispose`: delete the node's id from the root index
(the root and its map are always non-nil in reachable states). -/
def disposeDeindex (s3 : TreeState) (k : Nat) : TreeState :=
  { s3 with rootMap := mapErase s3.rootMap (getNode s3 k).id }

/-- Lines 254–256 of `Dispose`: remove the node from its parent's children
(firing the parent's `DelChild` notification); the root has no parent. -/
def disposeUnlink (s4 : TreeState) (k : Nat) : TreeState :=
  match (getNode s4 k).parentKey with
  | some p => removeChild s4 p k
  | none => s4

/-- Lines 257–262 of `Dispose`: release every argument reference and clear
the argument map. -/
def disposeRelease (s5 : TreeState) (k : Nat) : TreeState :=
  updateNode { s5 with store := unsubAll s5.store (getNode s5 k).arguments } k
    (fun nd => { nd with arguments := [] })

/-- Lines 250–262 of `Dispose`: everything after the recursive children
loop. -/
def disposeFinish (s2 : TreeState) (k : Nat) : TreeState :=
  disposeRelease (disposeUnlink (disposeDeindex (disposeClear s2 k) k) k) k

/-- Lines 243–263, `Dispose`: notify the node's subscribers of a delete,
dispose the children (see `disposeLoop`), then clear, deindex, unlink and
release (`disposeFinish`). -/
def disposeNode : Nat → TreeState → Nat → Except RunErr TreeState
  | 0, _, _ => .error .fuelOut
  | fuel + 1, s, k =>
    let s1 := publish s k { op := .deleteOp, child := none }
    match disposeLoop (fun st c => disposeNode fuel st c) s1 k 0
        ((getNode s1 k).children.length) with
    | .error e => .error e
    | .ok s2 => .ok (disposeFinish s2 k)

/-- The two node operations of `proto.RGQLTreeMutation`. -/
inductive MutOp where
  | subtreeAddChild
  | subtreeDelete
deriving DecidableEq

/-- One entry of `mutation.NodeMutation`: target node id, operation and (for
adds) the descriptor; the descriptor pointer may be nil on the wire. -/
structure NodeMutation where
  nodeId : Nat
  operation : MutOp
  node : Option NodeDescriptor

/-- `proto.RGQLTreeMutation`: variable bindings (`Variables`; `variables` is
reserved in Lean) plus node operations. -/
structure TreeMutation where
  vars : List VarBinding
  nodeMutation : List NodeMutation

/-- Install every variable binding of a batch into the store (lines 52–54). -/
def installVars (s : TreeState) (vars : List VarBinding) : TreeState :=
  vars.foldl (fun st v => { st with store := storePut st.store v }) s

/-- One iteration of the operation loop of `ApplyTreeMutation` (lines 56–75),
invoked on the root: look the target up in the root index and skip silently on
a miss; an add invokes `AddChild` and discards its error (it is only logged);
a delete disposes the target unless the id is 0 or the node is the root.
An add whose descriptor pointer is nil would dereference nil and panic. -/
def applyNodeOp (fuel : Nat) (s : TreeState) (m : NodeMutation) : Except RunErr TreeState :=
  match lookupA s.rootMap m.nodeId with
  | none => .ok s
  | some nk =>
    match m.operation with
    | .subtreeAddChild =>
      match m.node with
      | none => .error .nilPanic
      | some d => .ok (addChild fuel s nk d).1
    | .subtreeDelete =>
      if m.nodeId ≠ 0 ∧ nk ≠ s.rootKey then disposeNode fuel s nk else .ok s

/-- The `for _, aqn := range mutation.NodeMutation` loop of lines 56–75:
apply the node operations in order (a Go panic aborts the batch). -/
def applyOps (fuel : Nat) : TreeState → List NodeMutation → Except RunErr TreeState
  | s, [] => .ok s
  | s, m :: rest =>
    match applyNodeOp fuel s m with
    | .error e => .error e
    | .ok s2 => applyOps fuel s2 rest

/-- Lines 50–79, `ApplyTreeMutation` on the root node: install the batch's
variables, process the node operations in order, then garbage-collect the
variable store. -/
def applyTreeMutation (fuel : Nat) (s : TreeState) (mu : TreeMutation) :
    Except RunErr TreeState :=
  match applyOps fuel (installVars s mu.vars) mu.nodeMutation with
  | .error e => .error e
  | .ok s2 => .ok { s2 with store := storeGC s2.store }

/-- Lines 35–47, `NewQueryTree`: a fresh tree whose root (key 0, id 0) holds
the root query definition, the root index `{0 ↦ root}`, a fresh variable
store and the injected schema resolver. -/
def newQueryTree (rootQuery : ObjectDef) (resolver : List (String × ObjectDef)) : TreeState :=
  { nodes := [(0,
      { id := 0, parentKey := none, children := [], ast := some rootQuery,
        isPrimitive := false, primitiveName := "", arguments := [], subs := [], subCtr := 0 })],
    nextKey := 1, rootKey := 0, rootMap := [(0, 0)],
    store := { bindings := [], gcCount := 0 }, resolver := resolver }

/-! ### Well-formedness of tree states

Invariants that hold for every state built by `newQueryTree` and preserved by
the tree operations: heap keys are below the allocation counter, primitive
nodes carry no object definition, and the root is not primitive. -/

def WFState (s : TreeState) : Prop :=
  (∀ p ∈ s.nodes, p.1 < s.nextKey) ∧
  (∀ p ∈ s.nodes, p.2.isPrimitive = true → p.2.ast = none) ∧
  (∀ p ∈ s.nodes, p.1 = s.rootKey → p.2.isPrimitive = false) ∧
  s.rootKey < s.nextKey

instance (s : TreeState) : Decidable (WFState s) := by
  unfold WFState; infer_instance

/-! ### Association-list lemmas -/

theorem lookupA_mem {α β : Type} [DecidableEq α] {l : List (α × β)} {k : α} {v : β}
    (h : lookupA l k = some v) : (k, v) ∈ l := by
  induction l with
  | nil => simp [lookupA] at h
  | cons p rest ih =>
    rw [lookupA] at h
    by_cases hp : p.1 = k
    · rw [if_pos hp] at h
      injection h with h
      have hpe : (k, v) = p := by rw [← hp, ← h]
      rw [hpe]
      exact List.mem_cons_self p rest
    · rw [if_neg hp] at h
      exact List.mem_cons_of_mem _ (ih h)

theorem lookupA_append {α β : Type} [DecidableEq α] (l1 l2 : List (α × β)) (k : α) :
    lookupA (l1 ++ l2) k =
      match lookupA l1 k with
      | some v => some v
      | none => lookupA l2 k := by
  induction l1 with
  | nil => simp [lookupA]
  | cons p rest ih =>
    by_cases hp : p.1 = k <;> simp [lookupA, hp, ih]

theorem lookupA_map_ite {α β : Type} [DecidableEq α] (l : List (α × β)) (k k2 : α)
    (f : β → β) :
    lookupA (l.map fun p => if p.1 = k then (p.1, f p.2) else p) k2 =
      if k2 = k then (lookupA l k2).map f else lookupA l k2 := by
  induction l with
  | nil =>
    simp only [List.map_nil, lookupA]
    split <;> rfl
  | cons p rest ih =>
    simp only [List.map_cons]
    by_cases hp : p.1 = k
    · rw [if_pos hp]
      by_cases hpk2 : p.1 = k2
      · have hk2k : k2 = k := by rw [← hpk2, hp]
        simp [lookupA, hp, hpk2, hk2k]
      · have hk2k : ¬k2 = k := fun h => hpk2 (hp.trans h.symm)
        have hkk2 : ¬k = k2 := fun h => hk2k h.symm
        simp [lookupA, hp, hpk2, hk2k, hkk2, ih]
    · rw [if_neg hp]
      by_cases hpk2 : p.1 = k2
      · have hk2k : ¬k2 = k := fun h => hp (hpk2.trans h)
        simp [lookupA, hpk2, hk2k]
      · simp [lookupA, hpk2, ih]

theorem lookupA_isSome_iff_mem {α β : Type} [DecidableEq α] (l : List (α × β)) (k : α) :
    (lookupA l k).isSome = true ↔ k ∈ l.map Prod.fst := by
  induction l with
  | nil => simp [lookupA]
  | cons p rest ih =>
    by_cases hp : p.1 = k
    · simp [lookupA, hp]
    · have hkp : ¬k = p.1 := fun h => hp h.symm
      simp [lookupA, hp, hkp, ih]

/-! ### Field-projection lemmas for the state helpers -/

@[simp] theorem updateNode_store (s : TreeState) (k : Nat) (f : NodeData → NodeData) :
    (updateNode s k f).store = s.store := rfl

@[simp] theorem updateNode_nextKey (s : TreeState) (k : Nat) (f : NodeData → NodeData) :
    (updateNode s k f).nextKey = s.nextKey := rfl

@[simp] theorem updateNode_rootKey (s : TreeState) (k : Nat) (f : NodeData → NodeData) :
    (updateNode s k f).rootKey = s.rootKey := rfl

@[simp] theorem updateNode_rootMap (s : TreeState) (k : Nat) (f : NodeData → NodeData) :
    (updateNode s k f).rootMap = s.rootMap := rfl

theorem lookupA_updateNode_ne (s : TreeState) (k : Nat) (f : NodeData → NodeData)
    {k2 : Nat} (h : k2 ≠ k) : lookupA (updateNode s k f).nodes k2 = lookupA s.nodes k2 := by
  simp [updateNode, lookupA_map_ite, h]

theorem lookupA_updateNode_self (s : TreeState) (k : Nat) (f : NodeData → NodeData) :
    lookupA (updateNode s k f).nodes k = (lookupA s.nodes k).map f := by
  simp [updateNode, lookupA_map_ite]

theorem getNode_updateNode_ne (s : TreeState) (k : Nat) (f : NodeData → NodeData)
    {k2 : Nat} (h : k2 ≠ k) : getNode (updateNode s k f) k2 = getNode s k2 := by
  simp [getNode, lookupA_updateNode_ne s k f h]

theorem getNode_subs_updateNode_self (s : TreeState) (k : Nat) {f : NodeData → NodeData}
    (hf : ∀ nd, (f nd).subs = nd.subs) :
    (getNode (updateNode s k f) k).subs = (getNode s k).subs := by
  simp only [getNode, lookupA_updateNode_self]
  cases lookupA s.nodes k <;> simp [hf]

theorem getNode_publish_self (s : TreeState) (k : Nat) (u : QTNodeUpdate) :
    (getNode (publish s k u) k).subs = appendEvent (getNode s k).subs u := by
  unfold publish
  cases h : lookupA s.nodes k with
  | none => simp [getNode, lookupA_updateNode_self, h, defaultNodeData, appendEvent]
  | some nd => simp [getNode, lookupA_updateNode_self, h]

/-! ### Store-shape lemmas: the node operations never create or destroy
bindings and never run the garbage collector. -/

def storeIds (st : VariableStore) : List Nat := st.bindings.map Prod.fst

theorem storeIds_map_counts (st : VariableStore) (g : Nat → Nat → Nat) :
    storeIds { st with bindings := st.bindings.map (fun p => (p.1, g p.1 p.2)) } =
      storeIds st := by
  simp [storeIds, List.map_map, Function.comp]

theorem storeUnsub_ids (st : VariableStore) (r : Nat) :
    storeIds (storeUnsub st r) = storeIds st ∧ (storeUnsub st r).gcCount = st.gcCount := by
  constructor
  · have h : (fun p : Nat × Nat => if p.1 = r then (p.1, p.2 - 1) else p) =
        fun p : Nat × Nat => (p.1, if p.1 = r then p.2 - 1 else p.2) := by
      funext p; split <;> simp_all
    rw [storeUnsub, h]
    exact storeIds_map_counts st fun a b => if a = r then b - 1 else b
  · rfl

theorem unsubAll_shape (m : List (String × Nat)) (st : VariableStore) :
    storeIds (unsubAll st m) = storeIds st ∧ (unsubAll st m).gcCount = st.gcCount := by
  induction m generalizing st with
  | nil => exact ⟨rfl, rfl⟩
  | cons a m ih =>
    have h1 := storeUnsub_ids st a.2
    have h2 := ih (storeUnsub st a.2)
    exact ⟨h2.1.trans h1.1, h2.2.trans h1.2⟩

theorem storeGet_shape (st : VariableStore) (vid : Nat) :
    storeIds (storeGet st vid).2 = storeIds st ∧ (storeGet st vid).2.gcCount = st.gcCount := by
  unfold storeGet
  cases lookupA st.bindings vid with
  | none => exact ⟨rfl, rfl⟩
  | some c =>
    constructor
    · have h : (fun p : Nat × Nat => if p.1 = vid then (p.1, p.2 + 1) else p) =
          fun p : Nat × Nat => (p.1, if p.1 = vid then p.2 + 1 else p.2) := by
        funext p; split <;> simp_all
      rw [storeBump, h]
      exact storeIds_map_counts st fun a b => if a = vid then b + 1 else b
    · rfl

theorem processArgs_shape (args : List ArgDescriptor) (st : VariableStore)
    (acc : List (String × Nat)) :
    storeIds (processArgs st acc args).1 = storeIds st ∧
      (processArgs st acc args).1.gcCount = st.gcCount := by
  induction args generalizing st acc with
  | nil => exact ⟨rfl, rfl⟩
  | cons a args ih =>
    unfold processArgs
    rcases hg : storeGet st a.variableId with ⟨r, st1⟩
    have hsh : storeIds st1 = storeIds st ∧ st1.gcCount = st.gcCount := by
      have := storeGet_shape st a.variableId
      rw [hg] at this
      exact this
    cases r with
    | none =>
      have hu := unsubAll_shape acc st1
      exact ⟨hu.1.trans hsh.1, hu.2.trans hsh.2⟩
    | some r =>
      have := ih st1 (mapInsert acc a.name r)
      exact ⟨this.1.trans hsh.1, this.2.trans hsh.2⟩

/-! ### Preservation of well-formedness -/

theorem WFState_updateNode (s : TreeState) (k : Nat) (f : NodeData → NodeData)
    (hf : ∀ nd, (f nd).isPrimitive = nd.isPrimitive ∧ (f nd).ast = nd.ast)
    (h : WFState s) : WFState (updateNode s k f) := by
  obtain ⟨h1, h2, h3, h4⟩ := h
  have hkey : ∀ q : Nat × NodeData, (if q.1 = k then (q.1, f q.2) else q).1 = q.1 := by
    intro q; split <;> rfl
  have hprim : ∀ q : Nat × NodeData,
      (if q.1 = k then (q.1, f q.2) else q).2.isPrimitive = q.2.isPrimitive := by
    intro q; split
    · exact (hf _).1
    · rfl
  have hast : ∀ q : Nat × NodeData,
      (if q.1 = k then (q.1, f q.2) else q).2.ast = q.2.ast := by
    intro q; split
    · exact (hf _).2
    · rfl
  refine ⟨?_, ?_, ?_, h4⟩ <;> intro p hp <;>
    obtain ⟨q, hq, rfl⟩ := List.mem_map.mp hp
  · rw [hkey]
    exact h1 q hq
  · rw [hprim, hast]
    exact h2 q hq
  · rw [hkey, hprim]
    exact h3 q hq

theorem WFState_publish (s : TreeState) (k : Nat) (u : QTNodeUpdate) (h : WFState s) :
    WFState (publish s k u) :=
  WFState_updateNode s k (fun nd => { nd with subs := appendEvent nd.subs u })
    (fun _ => ⟨rfl, rfl⟩) h

theorem WFState_removeChild (s : TreeState) (pk ck : Nat) (h : WFState s) :
    WFState (removeChild s pk ck) := by
  unfold removeChild
  split
  · exact WFState_publish _ _ _
      (WFState_updateNode s pk (fun nd => { nd with children := nd.children.erase ck })
        (fun _ => ⟨rfl, rfl⟩) h)
  · exact h

/-! ### `removeChild` projections -/

theorem removeChild_store (s : TreeState) (pk ck : Nat) :
    (removeChild s pk ck).store = s.store := by
  unfold removeChild; split <;> rfl

theorem removeChild_nextKey (s : TreeState) (pk ck : Nat) :
    (removeChild s pk ck).nextKey = s.nextKey := by
  unfold removeChild; split <;> rfl

theorem removeChild_rootKey (s : TreeState) (pk ck : Nat) :
    (removeChild s pk ck).rootKey = s.rootKey := by
  unfold removeChild; split <;> rfl

theorem removeChild_rootMap (s : TreeState) (pk ck : Nat) :
    (removeChild s pk ck).rootMap = s.rootMap := by
  unfold removeChild; split <;> rfl

theorem removeChild_lookup_ne (s : TreeState) (pk ck : Nat) {k2 : Nat} (h : k2 ≠ pk) :
    lookupA (removeChild s pk ck).nodes k2 = lookupA s.nodes k2 := by
  unfold removeChild
  split
  · rw [publish, lookupA_updateNode_ne _ _ _ h, lookupA_updateNode_ne _ _ _ h]
  · rfl

theorem removeChild_subs_self (s : TreeState) (pk ck : Nat)
    (hmem : ck ∈ (getNode s pk).children) :
    (getNode (removeChild s pk ck) pk).subs =
      appendEvent (getNode s pk).subs { op := .delChildOp, child := some ck } := by
  unfold removeChild
  rw [if_pos hmem, getNode_publish_self]
  congr 1
  exact getNode_subs_updateNode_self s pk (fun _ => rfl)

/-! ### `rollbackState` projections (all reduce to `removeChild`) -/

theorem rollbackState_nextKey (s4 : TreeState) (pk mk did : Nat) :
    (rollbackState s4 pk mk did).nextKey = s4.nextKey := removeChild_nextKey s4 pk mk

theorem rollbackState_rootKey (s4 : TreeState) (pk mk did : Nat) :
    (rollbackState s4 pk mk did).rootKey = s4.rootKey := removeChild_rootKey s4 pk mk

theorem rollbackState_lookup_ne (s4 : TreeState) (pk mk did : Nat) {k2 : Nat}
    (h : k2 ≠ pk) :
    lookupA (rollbackState s4 pk mk did).nodes k2 = lookupA s4.nodes k2 :=
  removeChild_lookup_ne s4 pk mk h

theorem rollbackState_getNode (s4 : TreeState) (pk mk did k : Nat) :
    getNode (rollbackState s4 pk mk did) k = getNode (removeChild s4 pk mk) k := rfl

theorem WFState_rollbackState (s4 : TreeState) (pk mk did : Nat) (h : WFState s4) :
    WFState (rollbackState s4 pk mk did) := WFState_removeChild s4 pk mk h

/-! ### Inversion facts about `validateChild` -/

theorem validateChild_ok_lookup {s : TreeState} {pk did : Nat} {df : String}
    {r : Bool × String × Option ObjectDef} (h : validateChild s pk did df = .ok r) :
    lookupA s.nodes pk ≠ none := by
  intro hl
  rw [validateChild] at h
  unfold getNode at h
  rw [hl] at h
  simp only [Option.getD_none, defaultNodeData] at h
  split at h
  · cases h
  · cases h

theorem validateChild_ok_prim {s : TreeState} {pk did : Nat} {df : String}
    {b : Bool} {n : String} {t : Option ObjectDef}
    (h : validateChild s pk did df = .ok (b, n, t)) : b = true → t = none := by
  intro hb
  subst hb
  rw [validateChild] at h
  repeat' split at h
  all_goals (cases h <;> rfl)

/-! ### `mintState` facts -/

theorem mintState_nextKey (s : TreeState) (pk did : Nat) (st1 : VariableStore)
    (argMap : List (String × Nat)) (isPrim : Bool) (primName : String)
    (tdef : Option ObjectDef) :
    (mintState s pk did st1 argMap isPrim primName tdef).nextKey = s.nextKey + 1 := rfl

theorem mintState_rootKey (s : TreeState) (pk did : Nat) (st1 : VariableStore)
    (argMap : List (String × Nat)) (isPrim : Bool) (primName : String)
    (tdef : Option ObjectDef) :
    (mintState s pk did st1 argMap isPrim primName tdef).rootKey = s.rootKey := rfl

theorem addChildKey_children (mk : Nat) (nd : NodeData) :
    (addChildKey mk nd).children = nd.children ++ [mk] := rfl

theorem addChildKey_subs (mk : Nat) (nd : NodeData) :
    (addChildKey mk nd).subs = nd.subs := rfl

theorem mintState_nodes (s : TreeState) (pk did : Nat) (st1 : VariableStore)
    (argMap : List (String × Nat)) (isPrim : Bool) (primName : String)
    (tdef : Option ObjectDef) :
    (mintState s pk did st1 argMap isPrim primName tdef).nodes =
      (s.nodes ++ [(s.nextKey, mintNode pk did argMap isPrim primName tdef)]).map
        (fun p => if p.1 = pk then (p.1, addChildKey s.nextKey p.2) else p) := rfl

theorem mintState_lookup_ne (s : TreeState) (pk did : Nat) (st1 : VariableStore)
    (argMap : List (String × Nat)) (isPrim : Bool) (primName : String)
    (tdef : Option ObjectDef) {k : Nat} (hk1 : k ≠ pk) (hk2 : k ≠ s.nextKey) :
    lookupA (mintState s pk did st1 argMap isPrim primName tdef).nodes k =
      lookupA s.nodes k := by
  rw [mintState_nodes, lookupA_map_ite, if_neg hk1, lookupA_append]
  cases hl : lookupA s.nodes k with
  | none =>
    have h2 : ¬s.nextKey = k := fun h => hk2 h.symm
    simp [lookupA, h2]
  | some nd => rfl

theorem mintState_lookup_pk (s : TreeState) (pk did : Nat) (st1 : VariableStore)
    (argMap : List (String × Nat)) (isPrim : Bool) (primName : String)
    (tdef : Option ObjectDef) {nd : NodeData} (hnd : lookupA s.nodes pk = some nd) :
    lookupA (mintState s pk did st1 argMap isPrim primName tdef).nodes pk =
      some (addChildKey s.nextKey nd) := by
  rw [mintState_nodes, lookupA_map_ite, if_pos rfl, lookupA_append, hnd]
  rfl

theorem WFState_mintState (s : TreeState) (pk did : Nat) (st1 : VariableStore)
    (argMap : List (String × Nat)) (isPrim : Bool) (primName : String)
    (tdef : Option ObjectDef) (hw : WFState s) (hprim : isPrim = true → tdef = none) :
    WFState (mintState s pk did st1 argMap isPrim primName tdef) := by
  obtain ⟨h1, h2, h3, h4⟩ := hw
  have hs1 : WFState { s with
      store := st1,
      nodes := s.nodes ++ [(s.nextKey, mintNode pk did argMap isPrim primName tdef)],
      nextKey := s.nextKey + 1 } := by
    refine ⟨?_, ?_, ?_, Nat.lt_succ_of_lt h4⟩ <;> intro p hp <;>
      rcases List.mem_append.mp hp with hp | hp
    · exact Nat.lt_succ_of_lt (h1 p hp)
    · rw [List.mem_singleton.mp hp]
      exact Nat.lt_succ_self _
    · exact h2 p hp
    · rw [List.mem_singleton.mp hp]
      exact hprim
    · exact h3 p hp
    · rw [List.mem_singleton.mp hp]
      intro hr
      have he : s.nextKey = s.rootKey := hr
      omega
  exact WFState_updateNode _ pk (addChildKey s.nextKey) (fun _ => ⟨rfl, rfl⟩) hs1

/-! ### The structural master lemma for `AddChild`

For every well-formed state, `AddChild` preserves well-formedness, never
decreases the allocation counter, leaves every pre-existing node other than
the parent untouched, delivers exactly one `AddChild` update (for the minted
node) to the parent's subscribers on success, and exactly one `DelChild`
update (for the rolled-back minted node) on a failure that had already minted
the node. -/

theorem addChildrenLoop_master (mkey : Nat)
    (f : TreeState → NodeDescriptor → TreeState × Option AddErr)
    (hf : ∀ s c, WFState s →
      WFState (f s c).1 ∧ s.nextKey ≤ (f s c).1.nextKey ∧
      (f s c).1.rootKey = s.rootKey ∧
      (∀ k, k ≠ mkey → k < s.nextKey → lookupA (f s c).1.nodes k = lookupA s.nodes k)) :
    ∀ cs s, WFState s →
      WFState (addChildrenLoop f s cs).1 ∧
      s.nextKey ≤ (addChildrenLoop f s cs).1.nextKey ∧
      (addChildrenLoop f s cs).1.rootKey = s.rootKey ∧
      (∀ k, k ≠ mkey → k < s.nextKey →
        lookupA (addChildrenLoop f s cs).1.nodes k = lookupA s.nodes k) := by
  intro cs
  induction cs with
  | nil =>
    intro s hw
    exact ⟨hw, le_refl _, rfl, fun k _ _ => rfl⟩
  | cons c cs ih =>
    intro s hw
    have hstep := hf s c hw
    rw [addChildrenLoop]
    rcases hfc : f s c with ⟨s1, e1⟩
    rw [hfc] at hstep
    cases e1 with
    | some e =>
      exact hstep
    | none =>
      have hrest := ih s1 hstep.1
      refine ⟨hrest.1, le_trans hstep.2.1 hrest.2.1, hrest.2.2.1.trans hstep.2.2.1, ?_⟩
      intro k hk1 hk2
      exact (hrest.2.2.2 k hk1 (lt_of_lt_of_le hk2 hstep.2.1)).trans
        (hstep.2.2.2 k hk1 hk2)

theorem addChild_master : ∀ (fuel : Nat) (d : NodeDescriptor) (s : TreeState) (pk : Nat),
    WFState s →
    WFState (addChild fuel s pk d).1 ∧
    s.nextKey ≤ (addChild fuel s pk d).1.nextKey ∧
    (addChild fuel s pk d).1.rootKey = s.rootKey ∧
    (∀ k, k ≠ pk → k < s.nextKey →
      lookupA (addChild fuel s pk d).1.nodes k = lookupA s.nodes k) ∧
    ((addChild fuel s pk d).2 = none →
      (getNode (addChild fuel s pk d).1 pk).subs =
        appendEvent (getNode s pk).subs { op := .addChildOp, child := some s.nextKey }) ∧
    ((addChild fuel s pk d).2 ≠ none → s.nextKey < (addChild fuel s pk d).1.nextKey →
      (getNode (addChild fuel s pk d).1 pk).subs =
        appendEvent (getNode s pk).subs { op := .delChildOp, child := some s.nextKey }) := by
  intro fuel
  induction fuel with
  | zero =>
    intro d s pk hw
    refine ⟨hw, le_refl _, rfl, fun k _ _ => rfl, ?_, ?_⟩
    · intro h; simp [addChild] at h
    · intro _ hlt; exact absurd hlt (lt_irrefl _)
  | succ n ih =>
    intro d s pk hw
    obtain ⟨did, df, dargs, dcs⟩ := d
    cases hv : validateChild s pk did df with
    | error e =>
      have hred : addChild (n + 1) s pk (.mk did df dargs dcs) = (s, some e) := by
        simp only [addChild, hv]
      rw [hred]
      dsimp only
      refine ⟨hw, le_refl _, rfl, fun k _ _ => rfl, ?_, ?_⟩
      · intro h
        simp at h
      · intro _ hlt
        exact absurd hlt (lt_irrefl _)
    | ok res =>
      obtain ⟨isPrim, primName, tdef⟩ := res
      rcases hpa : processArgs s.store [] dargs with ⟨st1, am⟩
      cases am with
      | none =>
        have hred : addChild (n + 1) s pk (.mk did df dargs dcs) =
            ({ s with store := st1 }, some .unknownVariable) := by
          simp only [addChild, hv, hpa]
        rw [hred]
        dsimp only
        refine ⟨hw, le_refl _, rfl, fun k _ _ => rfl, ?_, ?_⟩
        · intro h
          simp at h
        · intro _ hlt
          exact absurd hlt (lt_irrefl _)
      | some argMap =>
        obtain ⟨nd, hnd⟩ : ∃ nd, lookupA s.nodes pk = some nd := by
          cases hl : lookupA s.nodes pk with
          | none => exact absurd hl (validateChild_ok_lookup hv)
          | some nd => exact ⟨nd, rfl⟩
        have hpk_lt : pk < s.nextKey := hw.1 (pk, nd) (lookupA_mem hnd)
        have hpk_ne : pk ≠ s.nextKey := Nat.ne_of_lt hpk_lt
        have hwM := WFState_mintState s pk did st1 argMap isPrim primName tdef hw
          (validateChild_ok_prim hv)
        have hfloop : ∀ st c, WFState st →
            WFState (addChild n st s.nextKey c).1 ∧
            st.nextKey ≤ (addChild n st s.nextKey c).1.nextKey ∧
            (addChild n st s.nextKey c).1.rootKey = st.rootKey ∧
            (∀ k, k ≠ s.nextKey → k < st.nextKey →
              lookupA (addChild n st s.nextKey c).1.nodes k = lookupA st.nodes k) := by
          intro st c hwst
          obtain ⟨a, b, cc, dd, _, _⟩ := ih c st s.nextKey hwst
          exact ⟨a, b, cc, dd⟩
        have hloop := addChildrenLoop_master s.nextKey _ hfloop dcs
          (mintState s pk did st1 argMap isPrim primName tdef) hwM
        rcases hL : addChildrenLoop (fun st c => addChild n st s.nextKey c)
            (mintState s pk did st1 argMap isPrim primName tdef) dcs with ⟨s4, e4⟩
        rw [hL] at hloop
        dsimp only at hloop
        obtain ⟨hw4, hnk4, hrk4, hun4⟩ := hloop
        rw [mintState_nextKey] at hnk4
        rw [mintState_rootKey] at hrk4
        have hlk4pk : lookupA s4.nodes pk = some (addChildKey s.nextKey nd) := by
          rw [hun4 pk hpk_ne (by rw [mintState_nextKey]; exact Nat.lt_succ_of_lt hpk_lt)]
          exact mintState_lookup_pk s pk did st1 argMap isPrim primName tdef hnd
        have hget4pk : getNode s4 pk = addChildKey s.nextKey nd := by
          rw [getNode, hlk4pk]
          rfl
        have hgetspk : getNode s pk = nd := by
          rw [getNode, hnd]
          rfl
        have hchain : ∀ k, k ≠ pk → k < s.nextKey →
            lookupA s4.nodes k = lookupA s.nodes k := by
          intro k hk1 hk2
          rw [hun4 k (Nat.ne_of_lt hk2)
            (by rw [mintState_nextKey]; exact Nat.lt_succ_of_lt hk2)]
          exact mintState_lookup_ne s pk did st1 argMap isPrim primName tdef hk1
            (Nat.ne_of_lt hk2)
        cases e4 with
        | some e =>
          have hred : addChild (n + 1) s pk (.mk did df dargs dcs) =
              (rollbackState s4 pk s.nextKey did, some e) := by
            simp only [addChild, hv, hpa, hL]
          rw [hred]
          dsimp only
          refine ⟨?_, ?_, ?_, ?_, ?_, ?_⟩
          · exact WFState_rollbackState s4 pk s.nextKey did hw4
          · rw [rollbackState_nextKey]
            omega
          · rw [rollbackState_rootKey, hrk4]
          · intro k hk1 hk2
            rw [rollbackState_lookup_ne s4 pk s.nextKey did hk1]
            exact hchain k hk1 hk2
          · intro h
            simp at h
          · intro _ _
            rw [rollbackState_getNode,
              removeChild_subs_self s4 pk s.nextKey
                (by simp [hget4pk, addChildKey_children]),
              hget4pk, hgetspk, addChildKey_subs]
        | none =>
          have hred : addChild (n + 1) s pk (.mk did df dargs dcs) =
              (publish s4 pk { op := .addChildOp, child := some s.nextKey }, none) := by
            simp only [addChild, hv, hpa, hL]
          rw [hred]
          dsimp only
          refine ⟨?_, ?_, ?_, ?_, ?_, ?_⟩
          · exact WFState_publish s4 pk _ hw4
          · rw [publish, updateNode_nextKey]
            omega
          · rw [publish, updateNode_rootKey, hrk4]
          · intro k hk1 hk2
            rw [publish, lookupA_updateNode_ne _ _ _ hk1]
            exact hchain k hk1 hk2
          · intro _
            rw [getNode_publish_self, hget4pk, hgetspk, addChildKey_subs]
          · intro h _
            exact absurd rfl h

/-! ### Store-shape preservation: the tree operations never create or
destroy store bindings and never run the garbage collector. -/

theorem mintState_store (s : TreeState) (pk did : Nat) (st1 : VariableStore)
    (argMap : List (String × Nat)) (isPrim : Bool) (primName : String)
    (tdef : Option ObjectDef) :
    (mintState s pk did st1 argMap isPrim primName tdef).store = st1 := rfl

theorem rollbackState_store (s4 : TreeState) (pk mk did : Nat) :
    (rollbackState s4 pk mk did).store = s4.store := removeChild_store s4 pk mk

theorem addChild_store_shape : ∀ (fuel : Nat) (d : NodeDescriptor) (s : TreeState)
    (pk : Nat),
    storeIds (addChild fuel s pk d).1.store = storeIds s.store ∧
    (addChild fuel s pk d).1.store.gcCount = s.store.gcCount := by
  intro fuel
  induction fuel with
  | zero => intro d s pk; exact ⟨rfl, rfl⟩
  | succ n ih =>
    intro d s pk
    obtain ⟨did, df, dargs, dcs⟩ := d
    have hloopgen : ∀ (cs : List NodeDescriptor) (st : TreeState),
        storeIds (addChildrenLoop (fun t c => addChild n t s.nextKey c) st cs).1.store =
          storeIds st.store ∧
        (addChildrenLoop (fun t c => addChild n t s.nextKey c) st cs).1.store.gcCount =
          st.store.gcCount := by
      intro cs
      induction cs with
      | nil => intro st; exact ⟨rfl, rfl⟩
      | cons c cs ihc =>
        intro st
        rcases hfc : addChild n st s.nextKey c with ⟨s1, e1⟩
        have h1 := ih c st s.nextKey
        rw [hfc] at h1
        dsimp only at h1
        cases e1 with
        | some e =>
          have hred : addChildrenLoop (fun t c => addChild n t s.nextKey c) st (c :: cs) =
              (s1, some e) := by
            simp only [addChildrenLoop, hfc]
          rw [hred]
          exact h1
        | none =>
          have hred : addChildrenLoop (fun t c => addChild n t s.nextKey c) st (c :: cs) =
              addChildrenLoop (fun t c => addChild n t s.nextKey c) s1 cs := by
            simp only [addChildrenLoop, hfc]
          rw [hred]
          have h2 := ihc s1
          exact ⟨h2.1.trans h1.1, h2.2.trans h1.2⟩
    cases hv : validateChild s pk did df with
    | error e =>
      have hred : addChild (n + 1) s pk (.mk did df dargs dcs) = (s, some e) := by
        simp only [addChild, hv]
      rw [hred]
      exact ⟨rfl, rfl⟩
    | ok res =>
      obtain ⟨isPrim, primName, tdef⟩ := res
      rcases hpa : processArgs s.store [] dargs with ⟨st1, am⟩
      have hpas := processArgs_shape dargs s.store []
      rw [hpa] at hpas
      cases am with
      | none =>
        have hred : addChild (n + 1) s pk (.mk did df dargs dcs) =
            ({ s with store := st1 }, some .unknownVariable) := by
          simp only [addChild, hv, hpa]
        rw [hred]
        exact hpas
      | some argMap =>
        rcases hL : addChildrenLoop (fun t c => addChild n t s.nextKey c)
            (mintState s pk did st1 argMap isPrim primName tdef) dcs with ⟨s4, e4⟩
        have hloop := hloopgen dcs (mintState s pk did st1 argMap isPrim primName tdef)
        rw [hL] at hloop
        dsimp only at hloop
        rw [mintState_store] at hloop
        cases e4 with
        | some e =>
          have hred : addChild (n + 1) s pk (.mk did df dargs dcs) =
              (rollbackState s4 pk s.nextKey did, some e) := by
            simp only [addChild, hv, hpa, hL]
          rw [hred]
          dsimp only
          rw [rollbackState_store]
          exact ⟨hloop.1.trans hpas.1, hloop.2.trans hpas.2⟩
        | none =>
          have hred : addChild (n + 1) s pk (.mk did df dargs dcs) =
              (publish s4 pk { op := .addChildOp, child := some s.nextKey }, none) := by
            simp only [addChild, hv, hpa, hL]
          rw [hred]
          dsimp only
          rw [publish, updateNode_store]
          exact ⟨hloop.1.trans hpas.1, hloop.2.trans hpas.2⟩

theorem disposeUnlink_store (s4 : TreeState) (k : Nat) :
    (disposeUnlink s4 k).store = s4.store := by
  unfold disposeUnlink
  split
  · exact removeChild_store ..
  · rfl

theorem disposeFinish_store_shape (s2 : TreeState) (k : Nat) :
    storeIds (disposeFinish s2 k).store = storeIds s2.store ∧
    (disposeFinish s2 k).store.gcCount = s2.store.gcCount := by
  unfold disposeFinish disposeRelease
  rw [updateNode_store]
  dsimp only
  rw [disposeUnlink_store]
  have hstep : (disposeDeindex (disposeClear s2 k) k).store = s2.store := rfl
  rw [hstep]
  exact unsubAll_shape _ _

/-- A binary relation preserved by `disposeLoop` whenever `f` preserves it. -/
theorem disposeLoop_rel (f : TreeState → Nat → Except RunErr TreeState)
    (R : TreeState → TreeState → Prop) (hrefl : ∀ a, R a a)
    (htrans : ∀ a b c, R a b → R b c → R a c)
    (hf : ∀ a c s', f a c = .ok s' → R a s') :
    ∀ (rem : Nat) (s : TreeState) (k i : Nat) (s' : TreeState),
      disposeLoop f s k i rem = .ok s' → R s s' := by
  intro rem
  induction rem with
  | zero =>
    intro s k i s' h
    rw [disposeLoop] at h
    injection h with h
    rw [← h]
    exact hrefl s
  | succ rem ihr =>
    intro s k i s' h
    rw [disposeLoop] at h
    split at h
    · split at h
      · cases h
      · rename_i s1 heq
        exact htrans _ _ _ (hf _ _ _ heq) (ihr s1 k (i + 1) s' h)
    · cases h

theorem disposeNode_store_shape : ∀ (fuel : Nat) (s : TreeState) (k : Nat)
    (s' : TreeState), disposeNode fuel s k = .ok s' →
    storeIds s'.store = storeIds s.store ∧ s'.store.gcCount = s.store.gcCount := by
  intro fuel
  induction fuel with
  | zero =>
    intro s k s' h
    rw [disposeNode] at h
    cases h
  | succ n ihn =>
    intro s k s' h
    rw [disposeNode] at h
    split at h
    · cases h
    · rename_i s2 heq
      injection h with h
      have hl := disposeLoop_rel (fun st c => disposeNode n st c)
        (fun a b => storeIds b.store = storeIds a.store ∧ b.store.gcCount = a.store.gcCount)
        (fun a => ⟨rfl, rfl⟩)
        (fun a b c hab hbc => ⟨hbc.1.trans hab.1, hbc.2.trans hab.2⟩)
        (fun a c s'' hc => ihn a c s'' hc)
        _ _ _ _ _ heq
      have hf := disposeFinish_store_shape s2 k
      rw [h] at hf
      rw [publish, updateNode_store] at hl
      exact ⟨hf.1.trans hl.1, hf.2.trans hl.2⟩

theorem applyNodeOp_store_shape (fuel : Nat) (s : TreeState) (m : NodeMutation)
    (s' : TreeState) (h : applyNodeOp fuel s m = .ok s') :
    storeIds s'.store = storeIds s.store ∧ s'.store.gcCount = s.store.gcCount := by
  unfold applyNodeOp at h
  split at h
  · injection h with h
    rw [← h]
    exact ⟨rfl, rfl⟩
  · split at h
    · split at h
      · cases h
      · injection h with h
        rw [← h]
        exact addChild_store_shape ..
    · split at h
      · exact disposeNode_store_shape _ _ _ _ h
      · injection h with h
        rw [← h]
        exact ⟨rfl, rfl⟩

theorem applyOps_store_shape : ∀ (fuel : Nat) (l : List NodeMutation) (b : TreeState)
    (s2 : TreeState), applyOps fuel b l = .ok s2 →
    storeIds s2.store = storeIds b.store ∧ s2.store.gcCount = b.store.gcCount := by
  intro fuel l
  induction l with
  | nil =>
    intro b s2 h
    rw [applyOps] at h
    injection h with h
    rw [← h]
    exact ⟨rfl, rfl⟩
  | cons m rest ih =>
    intro b s2 h
    rw [applyOps] at h
    split at h
    · cases h
    · rename_i b2 heq
      have h1 := applyNodeOp_store_shape fuel b m b2 heq
      have h2 := ih b2 s2 h
      exact ⟨h2.1.trans h1.1, h2.2.trans h1.2⟩

/-! ### Variable installation and batch decomposition -/

theorem storePut_gcCount (st : VariableStore) (b : VarBinding) :
    (storePut st b).gcCount = st.gcCount := by
  unfold storePut; split <;> rfl

theorem storePut_mem (st : VariableStore) (b : VarBinding) {x : Nat}
    (h : x ∈ storeIds st) : x ∈ storeIds (storePut st b) := by
  unfold storePut
  split
  · exact h
  · simp only [storeIds, List.map_append] at *
    exact List.mem_append_left _ h

theorem storePut_mem_self (st : VariableStore) (b : VarBinding) :
    b.id ∈ storeIds (storePut st b) := by
  unfold storePut
  split
  · rename_i hs
    exact (lookupA_isSome_iff_mem st.bindings b.id).mp hs
  · simp [storeIds]

theorem installVars_gcCount (vs : List VarBinding) (s : TreeState) :
    (installVars s vs).store.gcCount = s.store.gcCount := by
  induction vs generalizing s with
  | nil => rfl
  | cons v vs ih =>
    have hstep : installVars s (v :: vs) =
        installVars { s with store := storePut s.store v } vs := rfl
    rw [hstep, ih]
    exact storePut_gcCount ..

theorem installVars_mem_mono (vs : List VarBinding) (s : TreeState) {x : Nat}
    (h : x ∈ storeIds s.store) : x ∈ storeIds (installVars s vs).store := by
  induction vs generalizing s with
  | nil => exact h
  | cons v vs ih =>
    have hstep : installVars s (v :: vs) =
        installVars { s with store := storePut s.store v } vs := rfl
    rw [hstep]
    exact ih _ (storePut_mem s.store v h)

theorem installVars_mem (vs : List VarBinding) (s : TreeState) :
    ∀ v ∈ vs, v.id ∈ storeIds (installVars s vs).store := by
  induction vs generalizing s with
  | nil => intro v hv; cases hv
  | cons w vs ih =>
    intro v hv
    have hstep : installVars s (w :: vs) =
        installVars { s with store := storePut s.store w } vs := rfl
    rw [hstep]
    rcases List.mem_cons.mp hv with rfl | hv2
    · exact installVars_mem_mono vs _ (storePut_mem_self s.store v)
    · exact ih _ v hv2

theorem applyOps_append (fuel : Nat) (l1 l2 : List NodeMutation) (b : TreeState) :
    applyOps fuel b (l1 ++ l2) =
      match applyOps fuel b l1 with
      | .error e => .error e
      | .ok s2 => applyOps fuel s2 l2 := by
  induction l1 generalizing b with
  | nil => simp [applyOps]
  | cons m rest ih =>
    rw [List.cons_append, applyOps, applyOps]
    cases applyNodeOp fuel b m with
    | error e => rfl
    | ok s2 => exact ih s2

/-! ### Exact store restoration for the argument-resolution failure path -/

/-- How many references in an argument map point at variable `x`. -/
def countRefs (acc : List (String × Nat)) (x : Nat) : Nat := (acc.map Prod.snd).count x

theorem unsubAll_append (st : VariableStore) (m1 m2 : List (String × Nat)) :
    unsubAll st (m1 ++ m2) = unsubAll (unsubAll st m1) m2 := by
  simp [unsubAll, List.foldl_append]

theorem unsubAll_eq_map (acc : List (String × Nat)) (st : VariableStore) :
    unsubAll st acc =
      { st with bindings := st.bindings.map (fun p => (p.1, p.2 - countRefs acc p.1)) } := by
  induction acc generalizing st with
  | nil =>
    show st = _
    simp [countRefs]
  | cons a acc ih =>
    have hstep : unsubAll st (a :: acc) = unsubAll (storeUnsub st a.2) acc := rfl
    rw [hstep, ih]
    simp only [storeUnsub]
    congr 1
    rw [List.map_map]
    have hfun : ((fun p : Nat × Nat => (p.1, p.2 - countRefs acc p.1)) ∘
        (fun p : Nat × Nat => if p.1 = a.2 then (p.1, p.2 - 1) else p)) =
        fun p : Nat × Nat => (p.1, p.2 - countRefs (a :: acc) p.1) := by
      funext p
      by_cases hp : p.1 = a.2 <;>
        simp [Function.comp, hp, countRefs, List.count_cons] <;> omega
    rw [hfun]

theorem unsub_bump_cancel (st : VariableStore) (vid : Nat) (acc : List (String × Nat)) :
    storeUnsub (unsubAll (storeBump st vid) acc) vid = unsubAll st acc := by
  rw [unsubAll_eq_map, unsubAll_eq_map]
  simp only [storeUnsub, storeBump]
  congr 1
  rw [List.map_map, List.map_map]
  have hfun : (((fun p : Nat × Nat => if p.1 = vid then (p.1, p.2 - 1) else p) ∘
      (fun p : Nat × Nat => (p.1, p.2 - countRefs acc p.1))) ∘
        (fun p : Nat × Nat => if p.1 = vid then (p.1, p.2 + 1) else p)) =
      fun p : Nat × Nat => (p.1, p.2 - countRefs acc p.1) := by
    funext p
    by_cases hp : p.1 = vid <;> simp [Function.comp, hp] <;> omega
  rw [hfun]

theorem mapInsert_fresh {α β : Type} [DecidableEq α] (m : List (α × β)) (k : α) (v : β)
    (h : k ∉ m.map Prod.fst) : mapInsert m k v = m ++ [(k, v)] := by
  induction m with
  | nil => rfl
  | cons p rest ih =>
    simp only [List.map_cons, List.mem_cons] at h
    obtain ⟨h1, h2⟩ := not_or.mp h
    rw [mapInsert, if_neg (fun he => h1 he.symm), ih h2]
    rfl

/-- On an `UnknownVariable` failure with pairwise-distinct argument names, the
cleanup loop releases exactly the references acquired in this invocation:
the final store equals the entry store with `acc`'s references released. -/
theorem processArgs_fail_restore : ∀ (args : List ArgDescriptor) (st : VariableStore)
    (acc : List (String × Nat)) (st1 : VariableStore),
    (args.map ArgDescriptor.name).Nodup →
    (∀ a ∈ args, a.name ∉ acc.map Prod.fst) →
    processArgs st acc args = (st1, none) →
    st1 = unsubAll st acc := by
  intro args
  induction args with
  | nil =>
    intro st acc st1 _ _ h
    simp [processArgs] at h
  | cons a rest ih =>
    intro st acc st1 hnd hdisj h
    rw [processArgs] at h
    rcases hg : storeGet st a.variableId with ⟨r, st2⟩
    rw [hg] at h
    cases r with
    | none =>
      have hst2 : st = st2 := by
        unfold storeGet at hg
        cases hlv : lookupA st.bindings a.variableId <;> rw [hlv] at hg
        · injection hg with h1 h2
        · injection hg with h1 h2
          cases h1
      injection h with h1 h2
      rw [← hst2] at h1
      exact h1.symm
    | some rr =>
      have hbump : rr = a.variableId ∧ st2 = storeBump st a.variableId := by
        unfold storeGet at hg
        cases hlv : lookupA st.bindings a.variableId <;> rw [hlv] at hg
        · injection hg with h1 h2
          cases h1
        · injection hg with h1 h2
          injection h1 with h1
          exact ⟨h1.symm, h2.symm⟩
      obtain ⟨hrr, hst2⟩ := hbump
      have hfresh : a.name ∉ acc.map Prod.fst := hdisj a (List.mem_cons_self a rest)
      have hnd2 : (rest.map ArgDescriptor.name).Nodup := by
        simp only [List.map_cons, List.nodup_cons] at hnd
        exact hnd.2
      have hnotin : ∀ b ∈ rest, b.name ∉ (mapInsert acc a.name rr).map Prod.fst := by
        intro b hb
        rw [mapInsert_fresh acc a.name rr hfresh]
        simp only [List.map_append, List.mem_append]
        rintro (hb1 | hb2)
        · exact hdisj b (List.mem_cons_of_mem a hb) hb1
        · simp only [List.map_cons, List.nodup_cons] at hnd
          simp at hb2
          exact hnd.1 (hb2 ▸ List.mem_map_of_mem ArgDescriptor.name hb)
      have ihr := ih st2 (mapInsert acc a.name rr) st1 hnd2 hnotin h
      rw [mapInsert_fresh acc a.name rr hfresh, unsubAll_append] at ihr
      rw [ihr, hst2, hrr]
      show storeUnsub (unsubAll (storeBump st a.variableId) acc) a.variableId = _
      exact unsub_bump_cancel st a.variableId acc

/-! ### A concrete schema and tree for witnesses and counterexamples -/

/-- Composite type `A` with two composite fields and a primitive field. -/
def aDef : ObjectDef :=
  ⟨"A", [⟨"x", .named "A"⟩, ⟨"y", .named "A"⟩, ⟨"n", .named "Int"⟩]⟩

/-- The root query type. -/
def qDef : ObjectDef :=
  ⟨"Query", [⟨"a", .named "A"⟩, ⟨"b", .named "A"⟩, ⟨"count", .named "Int"⟩]⟩

/-- A resolver knowing type `A`. -/
def res0 : List (String × ObjectDef) := [("A", aDef)]

/-- A fresh query tree over the schema. -/
def s0 : TreeState := newQueryTree qDef res0

/-- Tree with node id 1 (field `a`) and node id 2 (field `b`) under the
root; heap keys 1 and 2. -/
def sC1 : TreeState :=
  (addChild 10 (addChild 10 s0 0 (.mk 1 "a" [] [])).1 0 (.mk 2 "b" [] [])).1

/-- `AddChild` on node key 2 proposing the already-used id 1. -/
def rC1 : TreeState × Option AddErr := addChild 10 sC1 2 (.mk 1 "x" [] [])

/-- C1 (code bug at `qtree.go:88`): with live nodes id 1 and id 2 under the
root, `AddChild` on node 2 proposing the duplicate id 1 succeeds instead of
failing with `DuplicateNodeId` — line 88 consults the parent's own
`RootNodeMap`, which is nil on every non-root node, instead of
`qt.Root.RootNodeMap` written on line 172.  The root-index entry for id 1 is
overwritten (now pointing at the new node, heap key 3) while the old node
(heap key 1) stays live under the root, so id 1 occurs twice among live
nodes. -/
theorem c1_duplicate_id_not_rejected :
    rC1.2 = none ∧
    lookupA sC1.rootMap 1 = some 1 ∧
    lookupA rC1.1.rootMap 1 = some 3 ∧
    (getNode rC1.1 1).id = 1 ∧ (getNode rC1.1 3).id = 1 ∧
    1 ∈ (getNode rC1.1 0).children ∧ 3 ∈ (getNode rC1.1 2).children := by decide

/-- Store with variable 1 installed. -/
def sC2 : TreeState := { s0 with store := storePut s0.store ⟨1⟩ }

/-- A descriptor with one valid argument and an invalid nested child. -/
def dC2 : NodeDescriptor := .mk 1 "a" [⟨"w", 1⟩] [.mk 2 "bogus" [] []]

/-- The failing `AddChild` call of the C2 scenario. -/
def rC2 : TreeState × Option AddErr := addChild 10 sC2 0 dC2

/-- C2 (code bug at `qtree.go:175`–`180`): an `AddChild` whose nested child
fails validation rolls the root index and the parent's children back to
their pre-call state, but the defer never releases the argument references
held by the minted node: the reference acquired for variable 1 (count 0
before the call) is still outstanding (count 1) after the call returns. -/
theorem c2_rollback_leaks_argument_reference :
    rC2.2 = some .unknownField ∧
    rC2.1.rootMap = sC2.rootMap ∧
    (getNode rC2.1 0).children = (getNode sC2 0).children ∧
    lookupA sC2.store.bindings 1 = some 0 ∧
    lookupA rC2.1.store.bindings 1 = some 1 := by decide

/-- Tree whose node id 1 (heap key 1) has two children (ids 2 and 3). -/
def sC3 : TreeState :=
  (addChild 10 s0 0 (.mk 1 "a" [] [.mk 2 "x" [] [], .mk 3 "y" [] []])).1

/-- Same shape with a single child. -/
def sC3one : TreeState := (addChild 10 s0 0 (.mk 1 "a" [] [.mk 2 "x" [] []])).1

/-- C3 (code bug at `qtree.go:247`–`249`): `Dispose` ranges over
`qt.Children` while each `child.Dispose()` shrinks that slice in place
through `removeChild`, so on a node with two children the loop's second
iteration reads the nil slot left by the shift and dereferences a nil
pointer: the program panics after disposing only the first child.  With a
single child (any chain) disposal completes. -/
theorem c3_dispose_two_children_panics :
    (getNode sC3 1).children = [2, 3] ∧
    disposeNode 10 sC3 1 = .error .nilPanic ∧
    (disposeNode 10 sC3one 1).isOk = true := by decide

/-- A batch that adds node id 1 under the root, then adds a node with id 0
under node 1 (accepted because of the C1 bug), then asks to delete id 0. -/
def batchC4 : TreeMutation :=
  ⟨[], [⟨0, .subtreeAddChild, some (.mk 1 "a" [] [])⟩,
        ⟨1, .subtreeAddChild, some (.mk 0 "x" [] [])⟩,
        ⟨0, .subtreeDelete, none⟩]⟩

/-- The state after applying `batchC4`. -/
def sC4 : TreeState := ((applyTreeMutation 10 s0 batchC4).toOption).getD s0

/-- C4 (code bug, consequence of the `qtree.go:88` slip): the delete
operation targeting id 0 is indeed skipped and the root node is never
disposed (its child list is intact), but after the batch the root is no
longer present in the root index under id 0: the entry `0 ↦ root` has been
overwritten by the impostor node (heap key 2, a child of node 1) that the
broken duplicate check let in. -/
theorem c4_root_index_entry_usurped :
    applyTreeMutation 10 s0 batchC4 = .ok sC4 ∧
    sC4.rootKey = 0 ∧
    lookupA sC4.rootMap 0 = some 2 ∧
    (getNode sC4 2).id = 0 ∧ (getNode sC4 2).parentKey = some 1 ∧
    (getNode sC4 0).children = [1] := by decide

/-- C5: for every well-formed tree state, a node classified as a primitive
leaf (`isPrimitive = true`) rejects every child descriptor with the
`NotSelectable` error and the state is completely unchanged, so a primitive
node's children list stays empty forever.  (Primitive nodes carry a nil
type definition and are never the root, both facts recorded in `WFState`
and preserved by every operation, `addChild_master`.) -/
theorem c5_primitive_not_selectable (fuel : Nat) (s : TreeState) (pk : Nat)
    (nd : NodeData) (d : NodeDescriptor) (hw : WFState s)
    (hnd : lookupA s.nodes pk = some nd) (hp : nd.isPrimitive = true) :
    addChild (fuel + 1) s pk d = (s, some .notSelectable) := by
  obtain ⟨did, df, dargs, dcs⟩ := d
  have hvc : validateChild s pk did df = .error .notSelectable := by
    unfold validateChild
    have hne : ¬(pk = s.rootKey ∧ (lookupA s.rootMap did).isSome = true) := by
      rintro ⟨hpk, -⟩
      have hfalse := hw.2.2.1 (pk, nd) (lookupA_mem hnd) hpk
      rw [hp] at hfalse
      cases hfalse
    rw [if_neg hne]
    have hast : (getNode s pk).ast = none := by
      have hn := hw.2.1 (pk, nd) (lookupA_mem hnd) hp
      rw [getNode, hnd]
      exact hn
    rw [hast]
  simp only [addChild, hvc]

/-- The tree `s0` with a primitive node (field `count : Int`, id 1, heap
key 1) under the root. -/
def sC5 : TreeState := (addChild 10 s0 0 (.mk 1 "count" [] [])).1

/-- Witness for C5: the primitive node of `sC5` rejects a child with
`NotSelectable` and nothing changes. -/
theorem c5_witness :
    addChild 10 sC5 1 (.mk 2 "x" [] []) = (sC5, some .notSelectable) :=
  c5_primitive_not_selectable 9 sC5 1 (getNode sC5 1) (.mk 2 "x" [] [])
    (by decide) (by decide) (by decide)

/-- Store with variables 1 and 2 installed. -/
def sC6 : TreeState := { s0 with store := storePut (storePut s0.store ⟨1⟩) ⟨2⟩ }

/-- Two arguments named `u` (for variables 1 and 2), then an argument naming
the absent variable 99. -/
def dC6 : NodeDescriptor := .mk 5 "a" [⟨"u", 1⟩, ⟨"u", 2⟩, ⟨"v", 99⟩] []

/-- The failing `AddChild` call of the C6 counterexample. -/
def rC6 : TreeState × Option AddErr := addChild 10 sC6 0 dC6

/-- C6 counterexample: when two arguments share the name `u`, the reference
acquired for variable 1 is overwritten in the argument map by the reference
for variable 2, so the cleanup loop of `qtree.go:147`–`150` never releases
it: after the `UnknownVariable` failure the count of variable 1 is still 1.
No node was created, but a reference acquired earlier in the same call
remains held, refuting the claim as stated. -/
theorem c6_duplicate_name_leaks :
    rC6.2 = some .unknownVariable ∧
    rC6.1.nodes = sC6.nodes ∧
    lookupA sC6.store.bindings 1 = some 0 ∧
    lookupA rC6.1.store.bindings 1 = some 1 ∧
    lookupA rC6.1.store.bindings 2 = some 0 := by decide

/-- C6 (amended: argument names pairwise distinct): when an argument's
variable id is not found in the store, `AddChild` fails with
`UnknownVariable`, every reference acquired earlier in that call is released
(the store returns to its entry value exactly), and no node is created: the
result state is the input state. -/
theorem c6_unknown_variable_full_release (fuel : Nat) (s : TreeState) (pk did : Nat)
    (df : String) (dargs : List ArgDescriptor) (dcs : List NodeDescriptor)
    (res : Bool × String × Option ObjectDef) (st1 : VariableStore)
    (hv : validateChild s pk did df = .ok res)
    (hpa : processArgs s.store [] dargs = (st1, none))
    (hnames : (dargs.map ArgDescriptor.name).Nodup) :
    addChild (fuel + 1) s pk (.mk did df dargs dcs) = (s, some .unknownVariable) := by
  obtain ⟨isPrim, primName, tdef⟩ := res
  have hst : st1 = s.store :=
    processArgs_fail_restore dargs s.store [] st1 hnames (by simp) hpa
  have hred : addChild (fuel + 1) s pk (.mk did df dargs dcs) =
      ({ s with store := st1 }, some .unknownVariable) := by
    simp only [addChild, hv, hpa]
  rw [hred, hst]

/-- A descriptor with distinct argument names whose second argument names
the absent variable 99. -/
def dC6w : NodeDescriptor := .mk 5 "a" [⟨"u", 1⟩, ⟨"v", 99⟩] []

/-- Witness for the amended C6: with distinct argument names the failing
call returns the state unchanged (variable 1's count back to 0). -/
theorem c6_witness :
    addChild 10 sC6 0 dC6w = (sC6, some .unknownVariable) :=
  c6_unknown_variable_full_release 9 sC6 0 5 "a" [⟨"u", 1⟩, ⟨"v", 99⟩] []
    (false, "", some aDef) sC6.store (by decide) (by decide) (by decide)

/-- C7: `ApplyTreeMutation` processes node operations strictly in order
(the batch decomposes around any chosen operation), an operation whose
target id is absent from the root index is a silent no-op, and an add
operation never aborts the batch — its `AddChild` error is swallowed, so
the remaining operations still run. -/
theorem c7_batch_order_skip_continue (fuel : Nat) (s : TreeState)
    (vs : List VarBinding) (pre : List NodeMutation) (m : NodeMutation)
    (post : List NodeMutation) :
    (applyTreeMutation fuel s ⟨vs, pre ++ m :: post⟩ =
      match applyOps fuel (installVars s vs) pre with
      | .error e => .error e
      | .ok s2 =>
        match applyNodeOp fuel s2 m with
        | .error e => .error e
        | .ok s3 =>
          match applyOps fuel s3 post with
          | .error e => .error e
          | .ok s4 => .ok { s4 with store := storeGC s4.store }) ∧
    (∀ s2, lookupA s2.rootMap m.nodeId = none → applyNodeOp fuel s2 m = .ok s2) ∧
    (∀ s2 nk d, lookupA s2.rootMap m.nodeId = some nk →
      m.operation = .subtreeAddChild → m.node = some d →
      applyNodeOp fuel s2 m = .ok (addChild fuel s2 nk d).1) := by
  refine ⟨?_, ?_, ?_⟩
  · unfold applyTreeMutation
    rw [applyOps_append]
    cases hx : applyOps fuel (installVars s vs) pre with
    | error e => rfl
    | ok s2 =>
      dsimp only
      rw [applyOps]
      cases applyNodeOp fuel s2 m with
      | error e => rfl
      | ok s3 =>
        cases applyOps fuel s3 post with
        | error e => rfl
        | ok s4 => rfl
  · intro s2 hmiss
    unfold applyNodeOp
    rw [hmiss]
  · intro s2 nk d hfind hop hnode
    unfold applyNodeOp
    rw [hfind, hop, hnode]

/-- A delete operation naming an id absent from every index we use. -/
def mSkip : NodeMutation := ⟨99, .subtreeDelete, none⟩

/-- An add of node id 1 (field `a`) under the root. -/
def mAdd0 : NodeMutation := ⟨0, .subtreeAddChild, some (.mk 1 "a" [] [])⟩

/-- Witness for C7: the unknown-id operation is a no-op on `s0`, and an add
operation always continues the batch with the (possibly unchanged) tree. -/
theorem c7_witness :
    applyNodeOp 10 s0 mSkip = .ok s0 ∧
    applyNodeOp 10 s0 mAdd0 = .ok (addChild 10 s0 0 (.mk 1 "a" [] [])).1 := by
  have h1 := c7_batch_order_skip_continue 10 s0 [] [] mSkip [mAdd0]
  have h2 := c7_batch_order_skip_continue 10 s0 [] [mSkip] mAdd0 []
  exact ⟨h1.2.1 s0 (by decide),
    h2.2.2 s0 0 (.mk 1 "a" [] []) (by decide) rfl rfl⟩

/-- C8: every variable binding of a batch is installed into the store before
any node operation runs (after any prefix of the operations every batch
variable is still present, and no garbage collection has happened), and the
garbage collector runs exactly once, after all operations: on success the
ghost collection counter is exactly one higher than before the batch. -/
theorem c8_vars_first_gc_once (fuel : Nat) (s : TreeState) (mu : TreeMutation)
    (pre post : List NodeMutation) (s2 : TreeState)
    (hsplit : mu.nodeMutation = pre ++ post)
    (hpre : applyOps fuel (installVars s mu.vars) pre = .ok s2) :
    (∀ v ∈ mu.vars, (lookupA s2.store.bindings v.id).isSome = true) ∧
    s2.store.gcCount = s.store.gcCount ∧
    (∀ s3, applyTreeMutation fuel s mu = .ok s3 →
      s3.store.gcCount = s.store.gcCount + 1) := by
  have hsh := applyOps_store_shape fuel pre (installVars s mu.vars) s2 hpre
  refine ⟨?_, ?_, ?_⟩
  · intro v hv
    rw [lookupA_isSome_iff_mem]
    show v.id ∈ storeIds s2.store
    rw [hsh.1]
    exact installVars_mem mu.vars s v hv
  · rw [hsh.2]
    exact installVars_gcCount ..
  · intro s3 h3
    unfold applyTreeMutation at h3
    split at h3
    · cases h3
    · rename_i s4 heq
      injection h3 with h3
      rw [← h3]
      have hsh4 := applyOps_store_shape fuel mu.nodeMutation (installVars s mu.vars) s4 heq
      have hg : s4.store.gcCount = s.store.gcCount :=
        hsh4.2.trans (installVars_gcCount ..)
      show s4.store.gcCount + 1 = s.store.gcCount + 1
      rw [hg]

/-- The state after the prefix `[mAdd0]` of the C8 witness batch. -/
def sC8 : TreeState :=
  ((applyOps 10 (installVars s0 [⟨7⟩]) [mAdd0]).toOption).getD s0

/-- The state after the whole C8 witness batch. -/
def sC8f : TreeState :=
  ((applyTreeMutation 10 s0 ⟨[⟨7⟩], [mAdd0]⟩).toOption).getD s0

/-- Witness for C8: variable 7 is present after the operation prefix, no
collection ran during it, and the final state has collected exactly once. -/
theorem c8_witness :
    (lookupA sC8.store.bindings 7).isSome = true ∧
    sC8.store.gcCount = s0.store.gcCount ∧
    sC8f.store.gcCount = s0.store.gcCount + 1 := by
  have h := c8_vars_first_gc_once 10 s0 ⟨[⟨7⟩], [mAdd0]⟩ [mAdd0] [] sC8
    (by simp) (by decide)
  exact ⟨h.1 ⟨7⟩ (by decide), h.2.1, h.2.2 sC8f (by decide)⟩

/-- C9: a successful `AddChild` publishes exactly one `AddChild` update —
referencing the freshly minted node (heap key `s.nextKey`) — to every
subscriber of the parent, and the subscription logs of every other
pre-existing node are untouched (events are local to the node they occur
on). -/
theorem c9_success_single_addchild_event (fuel : Nat) (s : TreeState) (pk : Nat)
    (d : NodeDescriptor) (s' : TreeState) (hw : WFState s)
    (h : addChild fuel s pk d = (s', none)) :
    (getNode s' pk).subs =
      appendEvent (getNode s pk).subs { op := .addChildOp, child := some s.nextKey } ∧
    ∀ k, k ≠ pk → k < s.nextKey → (getNode s' k).subs = (getNode s k).subs := by
  have hm := addChild_master fuel d s pk hw
  rw [h] at hm
  dsimp only at hm
  refine ⟨hm.2.2.2.2.1 rfl, ?_⟩
  intro k hk1 hk2
  rw [getNode, getNode, hm.2.2.2.1 k hk1 hk2]

/-- The fresh tree with one subscription (id 0) on the root. -/
def sSub : TreeState := (subscribeChanges s0 0).1

/-- A valid child descriptor for the root. -/
def dW : NodeDescriptor := .mk 1 "a" [] []

/-- Witness for C9: adding a child to the root of `sSub` delivers exactly
one `AddChild` update to the root's subscription and nothing anywhere
else. -/
theorem c9_witness :
    (getNode (addChild 10 sSub 0 dW).1 0).subs =
      appendEvent (getNode sSub 0).subs { op := .addChildOp, child := some sSub.nextKey } ∧
    ∀ k, k ≠ 0 → k < sSub.nextKey →
      (getNode (addChild 10 sSub 0 dW).1 k).subs = (getNode sSub k).subs :=
  c9_success_single_addchild_event 10 sSub 0 dW (addChild 10 sSub 0 dW).1
    (by decide) (by decide)

/-- C10: an `AddChild` call that minted its node (the allocation counter
advanced) and then failed on a nested descriptor publishes exactly one
`DelChild` update — for the rolled-back node — to the parent's subscribers,
and no other pre-existing node's log changes; in particular no `AddChild`
update for that node was ever published, so parent subscribers observe the
removal of a child whose addition they never saw. -/
theorem c10_rollback_delchild_event (fuel : Nat) (s : TreeState) (pk : Nat)
    (d : NodeDescriptor) (s' : TreeState) (e : AddErr) (hw : WFState s)
    (h : addChild fuel s pk d = (s', some e)) (hmint : s.nextKey < s'.nextKey) :
    (getNode s' pk).subs =
      appendEvent (getNode s pk).subs { op := .delChildOp, child := some s.nextKey } ∧
    ∀ k, k ≠ pk → k < s.nextKey → (getNode s' k).subs = (getNode s k).subs := by
  have hm := addChild_master fuel d s pk hw
  rw [h] at hm
  dsimp only at hm
  refine ⟨hm.2.2.2.2.2 (by simp) hmint, ?_⟩
  intro k hk1 hk2
  rw [getNode, getNode, hm.2.2.2.1 k hk1 hk2]

/-- A descriptor whose nested child fails validation. -/
def dX : NodeDescriptor := .mk 1 "a" [] [.mk 2 "bogus" [] []]

/-- Witness for C10: on `sSub` the failing nested add delivers exactly one
`DelChild` update (for the never-announced node) to the root's
subscription. -/
theorem c10_witness :
    (getNode (addChild 10 sSub 0 dX).1 0).subs =
      appendEvent (getNode sSub 0).subs { op := .delChildOp, child := some sSub.nextKey } ∧
    ∀ k, k ≠ 0 → k < sSub.nextKey →
      (getNode (addChild 10 sSub 0 dX).1 k).subs = (getNode sSub k).subs :=
  c10_rollback_delchild_event 10 sSub 0 dX (addChild 10 sSub 0 dX).1 .unknownField
    (by decide) (by decide) (by decide)

end Magellan
